import Mathlib

/-!
Verification of the unveilox-cli terminal presentation engine.

The Rust source (src/main.rs) is shallowly embedded below: strings are
lists of Unicode characters, the terminal device is an explicit command
trace together with a success oracle, and the reveal strategies are
modelled as pure trace-producing functions.  Each definition is a direct
translation of the function of the same name in the source.
-/

deriving instance DecidableEq for Except

namespace Unveilox

/-- Strings are modelled as lists of Unicode characters. -/
abbrev Str := List Char

/-- Rust char::is_whitespace, the Unicode White_Space property, enumerated
by code point. -/
def is_rust_whitespace (c : Char) : Bool :=
  decide (c.toNat = 0x20 ∨ (0x09 ≤ c.toNat ∧ c.toNat ≤ 0x0D) ∨ c.toNat = 0x85 ∨
    c.toNat = 0xA0 ∨ c.toNat = 0x1680 ∨ (0x2000 ≤ c.toNat ∧ c.toNat ≤ 0x200A) ∨
    c.toNat = 0x2028 ∨ c.toNat = 0x2029 ∨ c.toNat = 0x202F ∨ c.toNat = 0x205F ∨
    c.toNat = 0x3000)

/-- Rust str::trim on the character-list model: strip leading and trailing
whitespace. -/
def trim (s : Str) : Str :=
  ((s.dropWhile is_rust_whitespace).reverse.dropWhile is_rust_whitespace).reverse

/-- Rust char::to_ascii_lowercase. -/
def to_ascii_lowercase (c : Char) : Char :=
  if 0x41 ≤ c.toNat ∧ c.toNat ≤ 0x5A then Char.ofNat (c.toNat + 32) else c

/-- Rust char::to_ascii_uppercase. -/
def to_ascii_uppercase (c : Char) : Char :=
  if 0x61 ≤ c.toNat ∧ c.toNat ≤ 0x7A then Char.ofNat (c.toNat - 32) else c

/-- Rust str::eq_ignore_ascii_case. -/
def eq_ignore_ascii_case (a b : Str) : Bool :=
  decide (a.map to_ascii_lowercase = b.map to_ascii_lowercase)

/-- Rust Path::file_stem for a bare file name: the portion before the last
dot, or the whole name when there is no dot or the only dot is leading. -/
def file_stem (f : Str) : Str :=
  match f.reverse.dropWhile (fun c => decide (c ≠ '.')) with
  | [] => f
  | [_] => f
  | _ :: r => r.reverse

/-- read_poem from the source, with the bundled POEMS directory abstracted
as a table of (file name, contents) pairs queried in directory order:
reject an empty trimmed name, then try the exact file name trimmed ++
".txt", then scan for the first file whose stem matches the trimmed name
ignoring ASCII case. -/
def read_poem (table : List (Str × Str)) (name : Str) : Except Str Str :=
  let trimmed := trim name
  if trimmed = [] then Except.error "Writing name must not be empty".toList
  else
    match table.find? (fun f => decide (f.1 = trimmed ++ ".txt".toList)) with
    | some file => Except.ok file.2
    | none =>
      match table.find? (fun f => eq_ignore_ascii_case (file_stem f.1) trimmed) with
      | some file => Except.ok file.2
      | none => Except.error ("Writing not found: ".toList ++ trimmed)

/-- Rust u64::from_str on the character-list model: an optional leading plus
sign, then one or more ASCII digits, with the value inside the u64 range. -/
def parse_u64 (s : Str) : Option Nat :=
  let ds := match s with
    | '+' :: r => r
    | _ => s
  if ds ≠ [] ∧ ds.all (fun c => c.isDigit) then
    let v := ds.foldl (fun a c => a * 10 + (c.toNat - 0x30)) 0
    if v < 2 ^ 64 then some v else none
  else none

def MIN_SPEED : Nat := 1

def MAX_SPEED : Nat := 1000

def DEFAULT_SPEED : Nat := 25

/-- parse_speed from the source: parse as u64, then require the value to lie
in MIN_SPEED ..= MAX_SPEED. -/
def parse_speed (raw : Str) : Except Str Nat :=
  match parse_u64 raw with
  | none => Except.error ("`".toList ++ raw ++ "` is not a valid positive integer".toList)
  | some speed =>
    if ¬ (MIN_SPEED ≤ speed ∧ speed ≤ MAX_SPEED) then
      Except.error "speed must be between 1 and 1000 milliseconds".toList
    else
      Except.ok speed

/-- Terminal commands the guard emits on its release paths. -/
inductive Cmd
  | showCursor
  | disableRaw
  | leaveAlt
  deriving DecidableEq

/-- TerminalGuard from the source: the three session flags. -/
structure TerminalGuard where
  raw_mode : Bool
  alt_screen : Bool
  cursor_hidden : Bool
  deriving DecidableEq

/-- One terminal session: the guard together with the trace of commands
issued to the device so far. -/
structure TermSession where
  guard : TerminalGuard
  issued : List Cmd
  deriving DecidableEq

/-- TerminalGuard::show_cursor: only when the cursor is hidden, emit the
Show command (its success decided by the device oracle at the current
position of the trace) and clear the flag on success. -/
def show_cursor (o : Nat → Bool) (s : TermSession) : TermSession × Bool :=
  if s.guard.cursor_hidden then
    if o s.issued.length then
      (⟨⟨s.guard.raw_mode, s.guard.alt_screen, false⟩, s.issued ++ [Cmd.showCursor]⟩, true)
    else
      (⟨s.guard, s.issued ++ [Cmd.showCursor]⟩, false)
  else (s, true)

/-- TerminalGuard::disable_raw_mode: only when raw mode is active, emit the
disable command and clear the flag on success. -/
def disable_raw_mode (o : Nat → Bool) (s : TermSession) : TermSession × Bool :=
  if s.guard.raw_mode then
    if o s.issued.length then
      (⟨⟨false, s.guard.alt_screen, s.guard.cursor_hidden⟩, s.issued ++ [Cmd.disableRaw]⟩, true)
    else
      (⟨s.guard, s.issued ++ [Cmd.disableRaw]⟩, false)
  else (s, true)

/-- TerminalGuard::leave_alt_screen: only when the alternate screen is
active, emit the leave command and clear the flag on success. -/
def leave_alt_screen (o : Nat → Bool) (s : TermSession) : TermSession × Bool :=
  if s.guard.alt_screen then
    if o s.issued.length then
      (⟨⟨s.guard.raw_mode, false, s.guard.cursor_hidden⟩, s.issued ++ [Cmd.leaveAlt]⟩, true)
    else
      (⟨s.guard, s.issued ++ [Cmd.leaveAlt]⟩, false)
  else (s, true)

/-- TerminalGuard::finish: the three releases in order, stopping at the
first failure (the question-mark operator in the source). -/
def finish (o : Nat → Bool) (s : TermSession) : TermSession × Bool :=
  let r1 := show_cursor o s
  if r1.2 then
    let r2 := disable_raw_mode o r1.1
    if r2.2 then leave_alt_screen o r2.1 else r2
  else r1

/-- Drop for TerminalGuard: attempt all three releases in the same order,
discarding each result. -/
def drop_guard (o : Nat → Bool) (s : TermSession) : TermSession :=
  (leave_alt_screen o (disable_raw_mode o (show_cursor o s).1).1).1

/-- crossterm KeyCode, restricted to the variants the program can tell
apart; every remaining variant behaves like Other in is_exit_key. -/
inductive KeyCode
  | Esc
  | Enter
  | Backspace
  | Tab
  | Up
  | Down
  | Left
  | Right
  | F (n : Nat)
  | Char (c : Char)
  | Other
  deriving DecidableEq

/-- crossterm KeyModifiers as three independent flag bits. -/
structure KeyModifiers where
  shift : Bool
  control : Bool
  alt : Bool
  deriving DecidableEq

/-- crossterm KeyEvent: a key code with its modifiers. -/
structure KeyEvent where
  code : KeyCode
  modifiers : KeyModifiers
  deriving DecidableEq

/-- crossterm Event, restricted to the variants the program can tell
apart. -/
inductive Event
  | Key (k : KeyEvent)
  | Resize (w h : Nat)
  | FocusGained
  | FocusLost
  | Paste (s : Str)
  | Mouse
  deriving DecidableEq

/-- is_exit_key from the source: Escape, Enter and the plain character q
dismiss; the character c dismisses exactly when the control modifier is
held; everything else does not. -/
def is_exit_key (key : KeyEvent) : Bool :=
  match key.code with
  | KeyCode.Esc => true
  | KeyCode.Enter => true
  | KeyCode.Char c =>
    if c = 'q' then true
    else if c = 'c' then key.modifiers.control
    else false
  | _ => false

/-- poll_for_exit from the source, modelled on the event (if any) the
device delivers within the timeout window: a key event is classified by
is_exit_key, any other event and the empty window yield false. -/
def poll_for_exit (arrived : Option Event) : Bool :=
  match arrived with
  | some (Event.Key key) => is_exit_key key
  | some _ => false
  | none => false

/-- Largest u16 value; the cursor counters in typewriter_print are u16. -/
def U16_MAX : Nat := 65535

/-- u16 saturating_add of one. -/
def sat_succ (n : Nat) : Nat := min (n + 1) U16_MAX

/-- One step of the typewriter cursor state (col, row): a line break resets
the column and saturating-increments the row, any other character
saturating-increments the column. -/
def typewriter_step (p : Nat × Nat) (ch : Char) : Nat × Nat :=
  if ch = '\n' then (0, sat_succ p.2) else (sat_succ p.1, p.2)

/-- Cursor state of typewriter_print after the first k characters of the
text have been processed, starting from (0, 0). -/
def pos_after (text : Str) (k : Nat) : Nat × Nat :=
  (text.take k).foldl typewriter_step (0, 0)

/-- Accent colors used by the typewriter styling rule. -/
inductive StyleColor
  | Magenta
  | Blue
  deriving DecidableEq

/-- Observable output events of typewriter_print. -/
inductive TypeEmit
  | moveTo (col row : Nat)
  | print (ch : Char) (col row : Nat) (st : Option StyleColor)
  deriving DecidableEq

/-- Emission trace of the loop of typewriter_print: the character at index
i is processed (a line break repositions the cursor, anything else prints
with the inline styling rule of the source), then the poll after it may
request exit (exits i) and break the loop. -/
def typewriter_trace (exits : Nat → Bool) : Nat → Nat → Nat → Str → List TypeEmit
  | _, _, _, [] => []
  | i, col, row, ch :: rest =>
    if ch = '\n' then
      TypeEmit.moveTo 0 (sat_succ row) ::
        (if exits i then [] else typewriter_trace exits (i + 1) 0 (sat_succ row) rest)
    else
      TypeEmit.print ch col row
          (if (col + row) % 7 = 0 then some StyleColor.Magenta
           else if col % 5 = 0 then some StyleColor.Blue
           else none) ::
        (if exits i then [] else typewriter_trace exits (i + 1) (sat_succ col) row rest)

/-- Styling rule as written in the spec, as a function of the logical
position alone: accent color A (Magenta) when (column + row) mod 7 = 0,
else accent color B (Blue) when column mod 5 = 0, else no styling. -/
def style_spec (col row : Nat) : Option StyleColor :=
  if (col + row) % 7 = 0 then some StyleColor.Magenta
  else if col % 5 = 0 then some StyleColor.Blue
  else none

/-- Characters shown by the time-driven strategy of tui_reveal: elapsed
milliseconds divided by the fixed reveal rate of 8 ms per character,
capped at the total character count. -/
def shown (total_chars elapsed : Nat) : Nat := min (elapsed / 8) total_chars

/-- The Show branch of main in typewriter mode: look the poem up, and only
on success run the presentation (whose terminal output is the typewriter
trace); a lookup failure produces the error before any terminal output. -/
def run_show (table : List (Str × Str)) (name : Str) (exits : Nat → Bool) :
    Except Str (List TypeEmit) :=
  match read_poem table name with
  | Except.error e => Except.error e
  | Except.ok poem => Except.ok (typewriter_trace exits 0 0 0 poem)

/-- Reading order on typewriter cursor positions (col, row): the later
position is on a strictly later row, or on the same row at a column at
least as far right. -/
def pos_le (p q : Nat × Nat) : Prop :=
  p.2 < q.2 ∨ (p.2 = q.2 ∧ p.1 ≤ q.1)

instance (p q : Nat × Nat) : Decidable (pos_le p q) := by
  unfold pos_le
  infer_instance

/-!  Theorems.  -/

theorem is_exit_key_spec (k : KeyEvent) :
    is_exit_key k = true ↔
      (k.code = KeyCode.Esc ∨ k.code = KeyCode.Enter ∨ k.code = KeyCode.Char 'q' ∨
        (k.code = KeyCode.Char 'c' ∧ k.modifiers.control = true)) := by
  obtain ⟨code, mods⟩ := k
  cases code <;> simp [is_exit_key]

/-- Claim C3: poll_for_exit reports a dismiss signal exactly for a key
event whose key is Escape, Enter or the character q, or the character c
with the control modifier held; every other key event, every non-key
event such as a resize, and an empty poll window all yield false. -/
theorem poll_for_exit_spec (arrived : Option Event) :
    poll_for_exit arrived = true ↔
      ∃ k : KeyEvent, arrived = some (Event.Key k) ∧
        (k.code = KeyCode.Esc ∨ k.code = KeyCode.Enter ∨ k.code = KeyCode.Char 'q' ∨
          (k.code = KeyCode.Char 'c' ∧ k.modifiers.control = true)) := by
  cases arrived with
  | none => simp [poll_for_exit]
  | some ev =>
    cases ev <;> simp [poll_for_exit]
    case Key k => exact is_exit_key_spec k

/-- Claim C5: the time-driven reveal count is min(total, elapsed / 8) with
the fixed rate of 8 ms per character; it is monotone in elapsed time, and
it equals the total for every time at least total * 8. -/
theorem shown_monotone_and_complete (total t1 t2 t : Nat) (h12 : t1 ≤ t2)
    (ht : total * 8 ≤ t) :
    shown total t1 ≤ shown total t2 ∧ shown total t = total := by
  constructor
  · exact min_le_min (Nat.div_le_div_right h12) le_rfl
  · unfold shown
    have h8 : total ≤ t / 8 := (Nat.le_div_iff_mul_le (by norm_num)).mpr ht
    exact min_eq_right h8

theorem shown_monotone_and_complete_witness :
    shown 5 10 ≤ shown 5 20 ∧ shown 5 40 = 5 :=
  shown_monotone_and_complete 5 10 20 40 (by decide) (by decide)

/-- Claim C7: parse_speed rejects 0, 1001 and every non-numeric input,
each with a descriptive message, and accepts every integer from 1 to
1000 (in particular the bounds themselves), returning it unchanged. -/
theorem parse_speed_spec :
    parse_speed "0".toList =
      Except.error "speed must be between 1 and 1000 milliseconds".toList ∧
    parse_speed "1001".toList =
      Except.error "speed must be between 1 and 1000 milliseconds".toList ∧
    parse_speed "1".toList = Except.ok 1 ∧
    parse_speed "1000".toList = Except.ok 1000 ∧
    (∀ s : Str, parse_u64 s = none →
      parse_speed s =
        Except.error ("`".toList ++ s ++ "` is not a valid positive integer".toList)) ∧
    (∀ (s : Str) (n : Nat), parse_u64 s = some n → 1 ≤ n → n ≤ 1000 →
      parse_speed s = Except.ok n) := by
  refine ⟨by decide, by decide, by decide, by decide, ?_, ?_⟩
  · intro s h
    unfold parse_speed
    rw [h]
  · intro s n h h1 h2
    unfold parse_speed
    rw [h]
    simp [MIN_SPEED, MAX_SPEED, h1, h2]

theorem parse_speed_spec_witness : parse_speed "25".toList = Except.ok 25 :=
  parse_speed_spec.2.2.2.2.2 "25".toList 25 (by decide) (by decide) (by decide)

theorem show_cursor_noop (o : Nat → Bool) (s : TermSession)
    (h : s.guard.cursor_hidden = false) : show_cursor o s = (s, true) := by
  unfold show_cursor
  simp [h]

theorem disable_raw_mode_noop (o : Nat → Bool) (s : TermSession)
    (h : s.guard.raw_mode = false) : disable_raw_mode o s = (s, true) := by
  unfold disable_raw_mode
  simp [h]

theorem leave_alt_screen_noop (o : Nat → Bool) (s : TermSession)
    (h : s.guard.alt_screen = false) : leave_alt_screen o s = (s, true) := by
  unfold leave_alt_screen
  simp [h]

theorem show_cursor_succ (o : Nat → Bool) (s : TermSession)
    (h : (show_cursor o s).2 = true) :
    (show_cursor o s).1.guard.cursor_hidden = false ∧
    (show_cursor o s).1.guard.raw_mode = s.guard.raw_mode ∧
    (show_cursor o s).1.guard.alt_screen = s.guard.alt_screen := by
  unfold show_cursor at h ⊢
  cases hcur : s.guard.cursor_hidden <;> simp [hcur] at h ⊢
  cases hok : o s.issued.length <;> simp [hok] at h ⊢

theorem disable_raw_mode_succ (o : Nat → Bool) (s : TermSession)
    (h : (disable_raw_mode o s).2 = true) :
    (disable_raw_mode o s).1.guard.raw_mode = false ∧
    (disable_raw_mode o s).1.guard.cursor_hidden = s.guard.cursor_hidden ∧
    (disable_raw_mode o s).1.guard.alt_screen = s.guard.alt_screen := by
  unfold disable_raw_mode at h ⊢
  cases hraw : s.guard.raw_mode <;> simp [hraw] at h ⊢
  cases hok : o s.issued.length <;> simp [hok] at h ⊢

theorem leave_alt_screen_succ (o : Nat → Bool) (s : TermSession)
    (h : (leave_alt_screen o s).2 = true) :
    (leave_alt_screen o s).1.guard.alt_screen = false ∧
    (leave_alt_screen o s).1.guard.raw_mode = s.guard.raw_mode ∧
    (leave_alt_screen o s).1.guard.cursor_hidden = s.guard.cursor_hidden := by
  unfold leave_alt_screen at h ⊢
  cases halt : s.guard.alt_screen <;> simp [halt] at h ⊢
  cases hok : o s.issued.length <;> simp [hok] at h ⊢

theorem finish_succ_flags (o : Nat → Bool) (s s' : TermSession)
    (h : finish o s = (s', true)) :
    s'.guard.raw_mode = false ∧ s'.guard.alt_screen = false ∧
    s'.guard.cursor_hidden = false := by
  unfold finish at h
  by_cases h1 : (show_cursor o s).2 = true
  · rw [if_pos h1] at h
    by_cases h2 : (disable_raw_mode o (show_cursor o s).1).2 = true
    · rw [if_pos h2] at h
      have h3 : (leave_alt_screen o (disable_raw_mode o (show_cursor o s).1).1).2 = true := by
        rw [h]
      have a1 := show_cursor_succ o s h1
      have a2 := disable_raw_mode_succ o (show_cursor o s).1 h2
      have a3 := leave_alt_screen_succ o (disable_raw_mode o (show_cursor o s).1).1 h3
      have hs : s' = (leave_alt_screen o (disable_raw_mode o (show_cursor o s).1).1).1 := by
        rw [h]
      rw [hs]
      refine ⟨?_, a3.1, ?_⟩
      · rw [a3.2.1, a2.1]
      · rw [a3.2.2, a2.2.1, a1.1]
    · rw [if_neg h2] at h
      rw [h] at h2
      simp at h2
  · rw [if_neg h1] at h
    rw [h] at h1
    simp at h1

theorem finish_of_clear (o : Nat → Bool) (s : TermSession)
    (hraw : s.guard.raw_mode = false) (halt : s.guard.alt_screen = false)
    (hcur : s.guard.cursor_hidden = false) : finish o s = (s, true) := by
  unfold finish
  rw [show_cursor_noop o s hcur]
  simp only
  rw [disable_raw_mode_noop o s hraw]
  simp only
  rw [leave_alt_screen_noop o s halt]
  simp

theorem drop_guard_of_clear (o : Nat → Bool) (s : TermSession)
    (hraw : s.guard.raw_mode = false) (halt : s.guard.alt_screen = false)
    (hcur : s.guard.cursor_hidden = false) : drop_guard o s = s := by
  unfold drop_guard
  rw [show_cursor_noop o s hcur]
  simp only
  rw [disable_raw_mode_noop o s hraw]
  simp only
  rw [leave_alt_screen_noop o s halt]

/-- Claim C1: dropping the guard from any state it can have reached (no
finish call, a cancelled run, or a finish that failed partway) runs all
three releases: with the device accepting the teardown commands, the
three session flags all end false, and exactly the release commands for
the still-set flags are issued, in the order show cursor, disable raw
mode, leave alternate screen. -/
theorem drop_guard_releases_all (o : Nat → Bool) (s : TermSession)
    (hok : ∀ n, o n = true) :
    (drop_guard o s).guard.raw_mode = false ∧
    (drop_guard o s).guard.alt_screen = false ∧
    (drop_guard o s).guard.cursor_hidden = false ∧
    (drop_guard o s).issued = s.issued ++
      ((if s.guard.cursor_hidden then [Cmd.showCursor] else []) ++
       (if s.guard.raw_mode then [Cmd.disableRaw] else []) ++
       (if s.guard.alt_screen then [Cmd.leaveAlt] else [])) := by
  obtain ⟨⟨raw, alt, cur⟩, tr⟩ := s
  unfold drop_guard show_cursor disable_raw_mode leave_alt_screen
  cases raw <;> cases alt <;> cases cur <;> simp [hok]

theorem drop_guard_releases_all_witness :
    (drop_guard (fun _ => true) ⟨⟨true, true, true⟩, []⟩).guard.raw_mode = false ∧
    (drop_guard (fun _ => true) ⟨⟨true, true, true⟩, []⟩).guard.alt_screen = false ∧
    (drop_guard (fun _ => true) ⟨⟨true, true, true⟩, []⟩).guard.cursor_hidden = false ∧
    (drop_guard (fun _ => true) ⟨⟨true, true, true⟩, []⟩).issued = [] ++
      ((if true then [Cmd.showCursor] else []) ++
       (if true then [Cmd.disableRaw] else []) ++
       (if true then [Cmd.leaveAlt] else [])) :=
  drop_guard_releases_all (fun _ => true) ⟨⟨true, true, true⟩, []⟩ (fun _ => rfl)

/-- Claim C2: guard teardown is idempotent: once finish has succeeded, the
three flags are all clear, so a second finish (under any later device
behavior) issues no further commands, returns success and leaves the
session unchanged, and dropping the already-finished guard is likewise a
no-op. -/
theorem finish_idempotent (o : Nat → Bool) (s s' : TermSession)
    (h : finish o s = (s', true)) (o' : Nat → Bool) :
    finish o' s' = (s', true) ∧ drop_guard o' s' = s' := by
  obtain ⟨hraw, halt, hcur⟩ := finish_succ_flags o s s' h
  exact ⟨finish_of_clear o' s' hraw halt hcur, drop_guard_of_clear o' s' hraw halt hcur⟩

theorem finish_idempotent_witness :
    finish (fun _ => false)
        ⟨⟨false, false, false⟩, [Cmd.showCursor, Cmd.disableRaw, Cmd.leaveAlt]⟩ =
      (⟨⟨false, false, false⟩, [Cmd.showCursor, Cmd.disableRaw, Cmd.leaveAlt]⟩, true) ∧
    drop_guard (fun _ => false)
        ⟨⟨false, false, false⟩, [Cmd.showCursor, Cmd.disableRaw, Cmd.leaveAlt]⟩ =
      ⟨⟨false, false, false⟩, [Cmd.showCursor, Cmd.disableRaw, Cmd.leaveAlt]⟩ :=
  finish_idempotent (fun _ => true) ⟨⟨true, true, true⟩, []⟩
    ⟨⟨false, false, false⟩, [Cmd.showCursor, Cmd.disableRaw, Cmd.leaveAlt]⟩
    (by decide) (fun _ => false)

theorem typewriter_trace_style (exits : Nat → Bool) (text : Str) :
    ∀ (i col row : Nat) (ch : Char) (c r : Nat) (st : Option StyleColor),
      TypeEmit.print ch c r st ∈ typewriter_trace exits i col row text →
      st = style_spec c r := by
  induction text with
  | nil =>
    intro i col row ch c r st h
    simp [typewriter_trace] at h
  | cons hd tl ih =>
    intro i col row ch c r st h
    simp only [typewriter_trace] at h
    by_cases hnl : hd = '\n'
    · rw [if_pos hnl] at h
      rcases List.mem_cons.mp h with he | ht
      · exact absurd he (by simp)
      · by_cases hex : exits i
        · rw [if_pos hex] at ht
          simp at ht
        · rw [if_neg hex] at ht
          exact ih (i + 1) 0 (sat_succ row) ch c r st ht
    · rw [if_neg hnl] at h
      rcases List.mem_cons.mp h with he | ht
      · injection he with e1 e2 e3 e4
        subst e2
        subst e3
        rw [e4]
        rfl
      · by_cases hex : exits i
        · rw [if_pos hex] at ht
          simp at ht
        · rw [if_neg hex] at ht
          exact ih (i + 1) (sat_succ col) row ch c r st ht

/-- Claim C4: the styling of every character printed by the character-paced
strategy is the pure spec rule of its logical (column, row) position:
every print event of the typewriter trace carries style_spec of its
position, for every text and every cancellation pattern, so two runs of
the same text agree on the styling at every common position regardless of
timing. -/
theorem typewriter_style_pure (exits exits2 : Nat → Bool) (text : Str)
    (ch ch2 : Char) (col row : Nat) (st st2 : Option StyleColor)
    (h : TypeEmit.print ch col row st ∈ typewriter_trace exits 0 0 0 text)
    (h2 : TypeEmit.print ch2 col row st2 ∈ typewriter_trace exits2 0 0 0 text) :
    st = style_spec col row ∧ st2 = st := by
  have a := typewriter_trace_style exits text 0 0 0 ch col row st h
  have b := typewriter_trace_style exits2 text 0 0 0 ch2 col row st2 h2
  exact ⟨a, by rw [a, b]⟩

theorem typewriter_style_pure_witness :
    some StyleColor.Magenta = style_spec 0 0 ∧
    some StyleColor.Magenta = some StyleColor.Magenta :=
  typewriter_style_pure (fun _ => false) (fun _ => true) "ab".toList 'a' 'a' 0 0
    (some StyleColor.Magenta) (some StyleColor.Magenta) (by decide) (by decide)

/-- Claim C9: a name that is empty or whitespace-only after trimming is
rejected with the LookupError message before the asset table is consulted
(the same error results for every table) and before any terminal
interaction (the Show branch of main returns the error and produces no
typewriter output at all). -/
theorem empty_name_rejected (table : List (Str × Str)) (name : Str)
    (exits : Nat → Bool) (h : trim name = []) :
    read_poem table name = Except.error "Writing name must not be empty".toList ∧
    run_show table name exits = Except.error "Writing name must not be empty".toList := by
  have h1 : read_poem table name = Except.error "Writing name must not be empty".toList := by
    simp [read_poem, h]
  refine ⟨h1, ?_⟩
  unfold run_show
  rw [h1]

theorem empty_name_rejected_witness :
    read_poem [] "   ".toList = Except.error "Writing name must not be empty".toList ∧
    run_show [] "   ".toList (fun _ => false) =
      Except.error "Writing name must not be empty".toList :=
  empty_name_rejected [] "   ".toList (fun _ => false) (by decide)

/-- Claim C10: read_poem tries the exact file name first: when the table
holds a (unique) file named trimmed-name followed by .txt, that file is
returned even if the stem of another file also matches the name ignoring
case, and only when no file bears the exact name does the first match of
the case-insensitive stem scan decide the result. -/
theorem read_poem_exact_precedence (table : List (Str × Str)) (name : Str)
    (hne : trim name ≠ []) :
    (∀ f, f ∈ table → f.1 = trim name ++ ".txt".toList →
      (∀ g, g ∈ table → g.1 = trim name ++ ".txt".toList → g = f) →
      read_poem table name = Except.ok f.2) ∧
    ((∀ f, f ∈ table → f.1 ≠ trim name ++ ".txt".toList) →
      ∀ f, table.find? (fun g => eq_ignore_ascii_case (file_stem g.1) (trim name)) = some f →
        read_poem table name = Except.ok f.2) := by
  constructor
  · intro f hf hname huniq
    simp only [read_poem]
    rw [if_neg hne]
    have hsome : (table.find? (fun g => decide (g.1 = trim name ++ ".txt".toList))).isSome :=
      List.find?_isSome.mpr ⟨f, hf, by simp [hname]⟩
    obtain ⟨g, hg⟩ := Option.isSome_iff_exists.mp hsome
    have hgp : g.1 = trim name ++ ".txt".toList := by
      have := List.find?_some hg
      simpa using this
    have hgf : g = f := huniq g (List.mem_of_find?_eq_some hg) hgp
    rw [hg, hgf]
  · intro hnone f hscan
    simp only [read_poem]
    rw [if_neg hne]
    have hzero : table.find? (fun g => decide (g.1 = trim name ++ ".txt".toList)) = none :=
      List.find?_eq_none.mpr (fun x hx => by simpa using hnone x hx)
    rw [hzero, hscan]

theorem read_poem_exact_precedence_witness :
    read_poem [("INVICTUS.txt".toList, "A".toList), ("invictus.txt".toList, "B".toList)]
      "invictus".toList = Except.ok "B".toList :=
  (read_poem_exact_precedence
      [("INVICTUS.txt".toList, "A".toList), ("invictus.txt".toList, "B".toList)]
      "invictus".toList (by decide)).1
    ("invictus.txt".toList, "B".toList) (by decide) (by decide) (by decide)

theorem char_toNat_ofNat (n : Nat) (h : n < 55296) : (Char.ofNat n).toNat = n := by
  have hv : n.isValidChar := Or.inl h
  rw [Char.ofNat, dif_pos hv]
  rfl

theorem to_ascii_lowercase_eq (c : Char) :
    to_ascii_lowercase c =
      if 0x41 ≤ c.toNat ∧ c.toNat ≤ 0x5A then Char.ofNat (c.toNat + 32) else c := rfl

theorem to_ascii_uppercase_eq (c : Char) :
    to_ascii_uppercase c =
      if 0x61 ≤ c.toNat ∧ c.toNat ≤ 0x7A then Char.ofNat (c.toNat - 32) else c := rfl

theorem to_ascii_lowercase_toNat (c : Char) :
    (to_ascii_lowercase c).toNat =
      if 0x41 ≤ c.toNat ∧ c.toNat ≤ 0x5A then c.toNat + 32 else c.toNat := by
  rw [to_ascii_lowercase_eq c]
  by_cases h : 0x41 ≤ c.toNat ∧ c.toNat ≤ 0x5A
  · rw [if_pos h, if_pos h]
    exact char_toNat_ofNat _ (by omega)
  · rw [if_neg h, if_neg h]

theorem lower_lower (c : Char) :
    to_ascii_lowercase (to_ascii_lowercase c) = to_ascii_lowercase c := by
  rw [to_ascii_lowercase_eq (to_ascii_lowercase c)]
  by_cases h : 0x41 ≤ c.toNat ∧ c.toNat ≤ 0x5A
  · have hx : (to_ascii_lowercase c).toNat = c.toNat + 32 := by
      rw [to_ascii_lowercase_toNat, if_pos h]
    rw [hx, if_neg (by omega)]
  · have hx : (to_ascii_lowercase c).toNat = c.toNat := by
      rw [to_ascii_lowercase_toNat, if_neg h]
    rw [hx, if_neg h]

theorem lower_upper (c : Char) :
    to_ascii_lowercase (to_ascii_uppercase c) = to_ascii_lowercase c := by
  rw [to_ascii_uppercase_eq c]
  by_cases h : 0x61 ≤ c.toNat ∧ c.toNat ≤ 0x7A
  · rw [if_pos h]
    have ht : (Char.ofNat (c.toNat - 32)).toNat = c.toNat - 32 :=
      char_toNat_ofNat _ (by omega)
    rw [to_ascii_lowercase_eq (Char.ofNat (c.toNat - 32)), ht, if_pos (by omega)]
    have h32 : c.toNat - 32 + 32 = c.toNat := by omega
    rw [h32, Char.ofNat_toNat, to_ascii_lowercase_eq c, if_neg (by omega)]
  · rw [if_neg h]

theorem is_rust_whitespace_upper (c : Char) :
    is_rust_whitespace (to_ascii_uppercase c) = is_rust_whitespace c := by
  rw [to_ascii_uppercase_eq c]
  by_cases h : 0x61 ≤ c.toNat ∧ c.toNat ≤ 0x7A
  · rw [if_pos h]
    have ht : (Char.ofNat (c.toNat - 32)).toNat = c.toNat - 32 :=
      char_toNat_ofNat _ (by omega)
    simp only [is_rust_whitespace, decide_eq_decide, ht]
    omega
  · rw [if_neg h]

theorem is_rust_whitespace_lower (c : Char) :
    is_rust_whitespace (to_ascii_lowercase c) = is_rust_whitespace c := by
  simp only [is_rust_whitespace, decide_eq_decide, to_ascii_lowercase_toNat]
  by_cases h : 0x41 ≤ c.toNat ∧ c.toNat ≤ 0x5A
  · rw [if_pos h]
    omega
  · rw [if_neg h]

theorem map_lower_upper (l : Str) :
    (l.map to_ascii_uppercase).map to_ascii_lowercase = l.map to_ascii_lowercase := by
  induction l with
  | nil => rfl
  | cons hd tl ih => simp [lower_upper hd, ih]

theorem map_lower_lower (l : Str) :
    (l.map to_ascii_lowercase).map to_ascii_lowercase = l.map to_ascii_lowercase := by
  induction l with
  | nil => rfl
  | cons hd tl ih => simp [lower_lower hd, ih]

theorem trim_map (f : Char → Char)
    (hf : ∀ c, is_rust_whitespace (f c) = is_rust_whitespace c) (l : Str) :
    trim (l.map f) = (trim l).map f := by
  have hp : (is_rust_whitespace ∘ f) = is_rust_whitespace := funext hf
  unfold trim
  rw [List.dropWhile_map, hp, List.reverse_map, List.dropWhile_map, hp, List.reverse_map]

theorem eqIC_iff (a b : Str) :
    eq_ignore_ascii_case a b = true ↔
      a.map to_ascii_lowercase = b.map to_ascii_lowercase := by
  simp [eq_ignore_ascii_case]

theorem file_stem_txt (t : Str) (h : t ≠ []) :
    file_stem (t ++ ".txt".toList) = t := by
  unfold file_stem
  have hdrop : (t ++ ".txt".toList).reverse.dropWhile (fun c => decide (c ≠ '.')) =
      '.' :: t.reverse := by
    rw [List.reverse_append]
    show List.dropWhile _ (['t', 'x', 't', '.'] ++ t.reverse) = _
    simp [List.dropWhile]
  rw [hdrop]
  cases ht : t.reverse with
  | nil => exact absurd (by simpa using congrArg List.reverse ht) h
  | cons x xs =>
    show (x :: xs).reverse = t
    rw [← ht, List.reverse_reverse]

theorem read_poem_ok_match (table : List (Str × Str)) (name : Str) (b : Str)
    (h : read_poem table name = Except.ok b) :
    trim name ≠ [] ∧ ∃ f, f ∈ table ∧
      eq_ignore_ascii_case (file_stem f.1) (trim name) = true ∧ f.2 = b := by
  simp only [read_poem] at h
  by_cases hne : trim name = []
  · rw [if_pos hne] at h
    simp at h
  · rw [if_neg hne] at h
    refine ⟨hne, ?_⟩
    cases hfe : table.find? (fun g => decide (g.1 = trim name ++ ".txt".toList)) with
    | some g =>
      rw [hfe] at h
      simp only [Except.ok.injEq] at h
      have hg1 : g.1 = trim name ++ ".txt".toList := by simpa using List.find?_some hfe
      have hstem : file_stem g.1 = trim name := by
        rw [hg1]
        exact file_stem_txt _ hne
      refine ⟨g, List.mem_of_find?_eq_some hfe, ?_, h⟩
      rw [eqIC_iff, hstem]
    | none =>
      rw [hfe] at h
      cases hfs : table.find? (fun g => eq_ignore_ascii_case (file_stem g.1) (trim name)) with
      | some g =>
        rw [hfs] at h
        simp only [Except.ok.injEq] at h
        have hgp := List.find?_some hfs
        exact ⟨g, List.mem_of_find?_eq_some hfs, hgp, h⟩
      | none =>
        rw [hfs] at h
        simp at h

theorem read_poem_ok_of_match (table : List (Str × Str)) (name : Str) (b : Str)
    (huniq : ∀ f ∈ table, ∀ g ∈ table,
      eq_ignore_ascii_case (file_stem f.1) (file_stem g.1) = true → f = g)
    (hne : trim name ≠ []) (f : Str × Str) (hf : f ∈ table)
    (hfs : eq_ignore_ascii_case (file_stem f.1) (trim name) = true)
    (hfb : f.2 = b) :
    read_poem table name = Except.ok b := by
  simp only [read_poem]
  rw [if_neg hne]
  cases hfe : table.find? (fun g => decide (g.1 = trim name ++ ".txt".toList)) with
  | some g =>
    have hg1 : g.1 = trim name ++ ".txt".toList := by simpa using List.find?_some hfe
    have hgstem : file_stem g.1 = trim name := by
      rw [hg1]
      exact file_stem_txt _ hne
    have hgic : eq_ignore_ascii_case (file_stem g.1) (file_stem f.1) = true := by
      rw [eqIC_iff, hgstem]
      rw [eqIC_iff] at hfs
      exact hfs.symm
    have hgf : g = f := huniq g (List.mem_of_find?_eq_some hfe) f hf hgic
    rw [hgf]
    show Except.ok f.2 = Except.ok b
    rw [hfb]
  | none =>
    have hsome : (table.find? (fun g => eq_ignore_ascii_case (file_stem g.1) (trim name))).isSome :=
      List.find?_isSome.mpr ⟨f, hf, hfs⟩
    obtain ⟨g, hg⟩ := Option.isSome_iff_exists.mp hsome
    have hgp := List.find?_some hg
    have hgf : g = f := by
      refine huniq g (List.mem_of_find?_eq_some hg) f hf ?_
      rw [eqIC_iff] at hgp hfs ⊢
      rw [hgp, hfs]
    rw [hg, hgf]
    show Except.ok f.2 = Except.ok b
    rw [hfb]

/-- Claim C8: lookup is case-insensitive: when the stems of the bundled
files are pairwise distinct up to ASCII case (as the spec requires of the
asset collection), a successful lookup of a name returns the same body
for the all-uppercase and all-lowercase forms of that name. -/
theorem read_poem_case_insensitive (table : List (Str × Str)) (name : Str) (b : Str)
    (huniq : ∀ f ∈ table, ∀ g ∈ table,
      eq_ignore_ascii_case (file_stem f.1) (file_stem g.1) = true → f = g)
    (h : read_poem table name = Except.ok b) :
    read_poem table (name.map to_ascii_uppercase) = Except.ok b ∧
    read_poem table (name.map to_ascii_lowercase) = Except.ok b := by
  obtain ⟨hne, f, hf, hfs, hfb⟩ := read_poem_ok_match table name b h
  have htrimU : trim (name.map to_ascii_uppercase) = (trim name).map to_ascii_uppercase :=
    trim_map _ is_rust_whitespace_upper name
  have htrimL : trim (name.map to_ascii_lowercase) = (trim name).map to_ascii_lowercase :=
    trim_map _ is_rust_whitespace_lower name
  constructor
  · refine read_poem_ok_of_match table _ b huniq ?_ f hf ?_ hfb
    · rw [htrimU]
      simpa using hne
    · rw [htrimU, eqIC_iff, map_lower_upper]
      rw [eqIC_iff] at hfs
      exact hfs
  · refine read_poem_ok_of_match table _ b huniq ?_ f hf ?_ hfb
    · rw [htrimL]
      simpa using hne
    · rw [htrimL, eqIC_iff, map_lower_lower]
      rw [eqIC_iff] at hfs
      exact hfs

theorem read_poem_case_insensitive_witness :
    read_poem [("invictus.txt".toList, "P".toList)]
        ("Invictus".toList.map to_ascii_uppercase) = Except.ok "P".toList ∧
    read_poem [("invictus.txt".toList, "P".toList)]
        ("Invictus".toList.map to_ascii_lowercase) = Except.ok "P".toList :=
  read_poem_case_insensitive [("invictus.txt".toList, "P".toList)]
    "Invictus".toList "P".toList (by decide) (by decide)

theorem pos_le_refl (p : Nat × Nat) : pos_le p p := Or.inr ⟨rfl, le_rfl⟩

theorem pos_le_trans (p q r : Nat × Nat) (h1 : pos_le p q) (h2 : pos_le q r) :
    pos_le p r := by
  unfold pos_le at h1 h2 ⊢
  omega

theorem foldl_typewriter_col_le (l : Str) :
    ∀ p : Nat × Nat, p.1 ≤ U16_MAX → (l.foldl typewriter_step p).1 ≤ U16_MAX := by
  induction l with
  | nil =>
    intro p h
    simpa using h
  | cons hd tl ih =>
    intro p h
    rw [List.foldl_cons]
    apply ih
    unfold typewriter_step sat_succ U16_MAX
    by_cases hnl : hd = '\n'
    · rw [if_pos hnl]
      simp
    · rw [if_neg hnl]
      simp

theorem foldl_typewriter_row_le (l : Str) :
    ∀ p : Nat × Nat, (l.foldl typewriter_step p).2 ≤ p.2 + l.count '\n' := by
  induction l with
  | nil =>
    intro p
    simp
  | cons hd tl ih =>
    intro p
    rw [List.foldl_cons]
    have hih := ih (typewriter_step p hd)
    have hstep : (typewriter_step p hd).2 ≤ p.2 + (if hd = '\n' then 1 else 0) := by
      unfold typewriter_step sat_succ U16_MAX
      by_cases hnl : hd = '\n'
      · rw [if_pos hnl, if_pos hnl]
        simp
      · rw [if_neg hnl, if_neg hnl]
        simp
    have hc : (hd :: tl).count '\n' = tl.count '\n' + (if hd = '\n' then 1 else 0) := by
      rw [List.count_cons]
      by_cases hnl : hd = '\n' <;> simp [hnl]
    omega

theorem typewriter_step_pos_le (p : Nat × Nat) (ch : Char)
    (hcol : p.1 ≤ U16_MAX) (hrow : ch = '\n' → p.2 < U16_MAX) :
    pos_le p (typewriter_step p ch) := by
  unfold typewriter_step sat_succ pos_le
  by_cases hnl : ch = '\n'
  · rw [if_pos hnl]
    have := hrow hnl
    unfold U16_MAX at *
    simp
    omega
  · rw [if_neg hnl]
    unfold U16_MAX at *
    simp
    omega

theorem pos_after_step_le (text : Str) (hnl : text.count '\n' ≤ U16_MAX) (k : Nat) :
    pos_le (pos_after text k) (pos_after text (k + 1)) := by
  by_cases hk : text.length ≤ k
  · have h1 : text.take k = text := List.take_of_length_le hk
    have h2 : text.take (k + 1) = text := List.take_of_length_le (by omega)
    unfold pos_after
    rw [h1, h2]
    exact pos_le_refl _
  · push_neg at hk
    have h2 : text.take (k + 1) = text.take k ++ [text[k]] := by
      rw [List.take_succ, List.getElem?_eq_getElem hk]
      rfl
    unfold pos_after
    rw [h2, List.foldl_append, List.foldl_cons, List.foldl_nil]
    apply typewriter_step_pos_le
    · exact foldl_typewriter_col_le (text.take k) (0, 0) (by unfold U16_MAX; omega)
    · intro hch
      have hr := foldl_typewriter_row_le (text.take k) (0, 0)
      have hcnt : (text.take k).count '\n' + 1 ≤ text.count '\n' := by
        have hsplit : text = text.take (k + 1) ++ text.drop (k + 1) :=
          (List.take_append_drop _ _).symm
        have he : (text.take (k + 1)).count '\n' = (text.take k).count '\n' + 1 := by
          rw [h2, List.count_append]
          simp [hch]
        calc (text.take k).count '\n' + 1 = (text.take (k + 1)).count '\n' := he.symm
          _ ≤ text.count '\n' := by
              conv_rhs => rw [hsplit]
              rw [List.count_append]
              omega
      unfold U16_MAX at *
      omega

/-- Claim C6 amended: over one presentation of a text containing at most
65535 line breaks (so the u16 row counter of typewriter_print never
saturates), the cursor position never moves backwards in reading order
across the per-character steps. -/
theorem typewriter_pos_monotone (text : Str) (hnl : text.count '\n' ≤ 65535) :
    ∀ i j : Nat, i ≤ j → pos_le (pos_after text i) (pos_after text j) := by
  intro i j hij
  induction j with
  | zero =>
    have hz : i = 0 := by omega
    rw [hz]
    exact pos_le_refl _
  | succ m ih =>
    by_cases him : i ≤ m
    · exact pos_le_trans _ _ _ (ih him) (pos_after_step_le text hnl m)
    · have he : i = m + 1 := by omega
      rw [he]
      exact pos_le_refl _

theorem typewriter_pos_monotone_witness :
    pos_le (pos_after "ab\ncd".toList 1) (pos_after "ab\ncd".toList 4) :=
  typewriter_pos_monotone "ab\ncd".toList (by decide) 1 4 (by decide)

theorem foldl_newlines (n : Nat) : ∀ r : Nat, r + n ≤ 65535 →
    (List.replicate n '\n').foldl typewriter_step (0, r) = (0, r + n) := by
  induction n with
  | zero =>
    intro r h
    simp
  | succ m ih =>
    intro r h
    rw [List.replicate_succ, List.foldl_cons]
    have hstep : typewriter_step (0, r) '\n' = (0, r + 1) := by
      simp [typewriter_step, sat_succ, U16_MAX]
      omega
    rw [hstep, ih (r + 1) (by omega)]
    congr 1
    omega

/-- Claim C6 as stated fails on the code: after 65535 line breaks the u16
row counter is saturated, so processing one printable character and then
one more line break moves the cursor from (1, 65535) to (0, 65535) — the
column decreases on an unchanged row, a move backwards in reading order
at the step from position 65536 to 65537 of this text. -/
theorem typewriter_pos_monotone_cex :
    pos_after (List.replicate 65535 '\n' ++ ['a', '\n']) 65536 = (1, 65535) ∧
    pos_after (List.replicate 65535 '\n' ++ ['a', '\n']) 65537 = (0, 65535) ∧
    ¬ pos_le (pos_after (List.replicate 65535 '\n' ++ ['a', '\n']) 65536)
        (pos_after (List.replicate 65535 '\n' ++ ['a', '\n']) 65537) := by
  have hlen : (List.replicate 65535 '\n').length = 65535 := by
    rw [List.length_replicate]
  have hle : (List.replicate 65535 '\n').length ≤ 65536 := by
    rw [hlen]
    omega
  have hle2 : (List.replicate 65535 '\n' ++ ['a', '\n']).length ≤ 65537 := by
    rw [List.length_append, hlen]
    decide
  have hbase : (List.replicate 65535 '\n').foldl typewriter_step (0, 0) = (0, 65535) := by
    have hf := foldl_newlines 65535 0 (by omega)
    rw [hf]
  have htk : List.take (65536 - (List.replicate 65535 '\n').length) ['a', '\n'] = ['a'] := by
    rw [hlen]
    decide
  have ht1 : (List.replicate 65535 '\n' ++ ['a', '\n']).take 65536 =
      List.replicate 65535 '\n' ++ ['a'] := by
    rw [List.take_append_eq_append_take, List.take_of_length_le hle, htk]
  have ht2 : (List.replicate 65535 '\n' ++ ['a', '\n']).take 65537 =
      List.replicate 65535 '\n' ++ ['a', '\n'] :=
    List.take_of_length_le hle2
  have hfa : List.foldl typewriter_step (0, 65535) ['a'] = ((1 : Nat), (65535 : Nat)) := by
    decide
  have hfb : List.foldl typewriter_step (0, 65535) ['a', '\n'] = ((0 : Nat), (65535 : Nat)) := by
    decide
  have h1 : pos_after (List.replicate 65535 '\n' ++ ['a', '\n']) 65536 = (1, 65535) := by
    unfold pos_after
    rw [ht1, List.foldl_append, hbase, hfa]
  have h2 : pos_after (List.replicate 65535 '\n' ++ ['a', '\n']) 65537 = (0, 65535) := by
    unfold pos_after
    rw [ht2, List.foldl_append, hbase, hfb]
  refine ⟨h1, h2, ?_⟩
  rw [h1, h2]
  decide

end Unveilox
